import Mathlib

/-!
Verification development for `src/otlp_decoder_function/lambda_function.py`
(firehose-metric-transformer).

The Python module is shallowly embedded below.  Bytes are modelled as `Nat`
values in a `List Nat`, Python floats that only ever hold exact small values
(the summary placeholders, `time.time()`) are modelled as `ℚ`, and fallible
operations return `Option`.  The protobuf schema types mirror the OTLP 0.7
messages the module imports (`ExportMetricsServiceRequest`, `StringKeyValue`,
`Metric`, `DoubleSummary`, `DoubleSummaryDataPoint`); all variants of the
`Metric.data` oneof carry the same model data-point structure, which holds the
union of the fields this module reads or writes (labels, timestamps, count,
sum, quantile values).
-/

namespace Otlp

/-- OTLP `StringKeyValue`: an immutable (key, value) label pair. -/
structure StringKeyValue where
  key : String
  value : String
deriving DecidableEq

/-- `DoubleSummaryDataPoint.ValueAtQuantile`: one (quantile, value) pair. -/
structure ValueAtQuantile where
  quantile : ℚ
  value : ℚ
deriving DecidableEq

/-- One data point.  All OTLP 0.7 data-point messages carry `labels`; the
timestamp/count/sum/quantile fields are the ones populated by
`create_custom_summary_metric` (other variants leave them at defaults). -/
structure DataPoint where
  labels : List StringKeyValue
  start_time_unix_nano : Int
  time_unix_nano : Int
  count : Nat
  sum : ℚ
  quantile_values : List ValueAtQuantile
deriving DecidableEq

/-- The `Metric.data` oneof of OTLP 0.7: exactly one variant populated. -/
inductive MetricData where
  | int_gauge (data_points : List DataPoint)
  | double_gauge (data_points : List DataPoint)
  | int_sum (data_points : List DataPoint)
  | double_sum (data_points : List DataPoint)
  | int_histogram (data_points : List DataPoint)
  | double_histogram (data_points : List DataPoint)
  | double_summary (data_points : List DataPoint)
deriving DecidableEq

/-- `getattr(metric, metric.WhichOneof('data')).data_points`. -/
def MetricData.data_points : MetricData → List DataPoint
  | .int_gauge dps => dps
  | .double_gauge dps => dps
  | .int_sum dps => dps
  | .double_sum dps => dps
  | .int_histogram dps => dps
  | .double_histogram dps => dps
  | .double_summary dps => dps

/-- OTLP `Metric`.  `data = none` models `WhichOneof('data') is None`. -/
structure Metric where
  name : String
  description : String
  unit : String
  data : Option MetricData
deriving DecidableEq

/-- OTLP `InstrumentationLibraryMetrics`: the mutation point of the module. -/
structure InstrumentationLibraryMetrics where
  library_name : String
  metrics : List Metric
deriving DecidableEq

/-- OTLP `ResourceMetrics`. -/
structure ResourceMetrics where
  resource : List StringKeyValue
  instrumentation_library_metrics : List InstrumentationLibraryMetrics
deriving DecidableEq

/-- OTLP `ExportMetricsServiceRequest`: root entity of one framed message. -/
structure ExportMetricsServiceRequest where
  resource_metrics : List ResourceMetrics
deriving DecidableEq

/-! ## Environment-variable configuration

The Python module reads, at import time:
`TARGET_FUNCTION_NAMES_STR = os.environ.get('TARGET_FUNCTION_NAMES', '')`,
`ATTRIBUTE_KEY = os.environ.get('ATTRIBUTE_KEY')`,
`ATTRIBUTE_VALUE = os.environ.get('ATTRIBUTE_VALUE')`.
`os.environ.get` without a default returns `None` when unset, modelled by
`Option String`. -/

structure Config where
  TARGET_FUNCTION_NAMES_STR : String
  ATTRIBUTE_KEY : Option String
  ATTRIBUTE_VALUE : Option String

/-- Python whitespace stripped by `str.strip()` (ASCII part). -/
def isPySpace (c : Char) : Bool :=
  c = ' ' ∨ c = '\t' ∨ c = '\n' ∨ c = '\r' ∨ c = '\x0b' ∨ c = '\x0c'

/-- Python `s.split(',')` on the character list: splits at every comma and
keeps empty pieces, so `"".split(',') == ['']`. -/
def splitCommaChars : List Char → List (List Char)
  | [] => [[]]
  | c :: rest =>
    match splitCommaChars rest with
    | [] => [[c]]
    | p :: ps => if c = ',' then [] :: p :: ps else (c :: p) :: ps

/-- Python `s.split(',')`. -/
def pySplitComma (s : String) : List String :=
  (splitCommaChars s.data).map (fun cs => ⟨cs⟩)

/-- Python `s.strip()`: drop leading and trailing whitespace. -/
def pyStrip (s : String) : String :=
  ⟨(((s.data.dropWhile isPySpace).reverse.dropWhile isPySpace).reverse)⟩

/-- `TARGET_FUNCTION_NAMES = [name.strip() for name in
TARGET_FUNCTION_NAMES_STR.split(',') if name.strip()]`. -/
def TARGET_FUNCTION_NAMES (cfg : Config) : List String :=
  ((pySplitComma cfg.TARGET_FUNCTION_NAMES_STR).map pyStrip).filter (fun s => s ≠ "")

/-- `FUNCTION_NAME_LABEL_KEY = "FunctionName"`. -/
def FUNCTION_NAME_LABEL_KEY : String := "FunctionName"

/-- Truthiness of `all([TARGET_FUNCTION_NAMES, ATTRIBUTE_KEY, ATTRIBUTE_VALUE])`:
an empty list, `None`, and the empty string are all falsy. -/
def configComplete (cfg : Config) : Bool :=
  match cfg.ATTRIBUTE_KEY, cfg.ATTRIBUTE_VALUE with
  | some ak, some av =>
    decide (¬(TARGET_FUNCTION_NAMES cfg = [] ∨ ak = "" ∨ av = ""))
  | _, _ => false

/-- `custom_attrs = {ATTRIBUTE_KEY: ATTRIBUTE_VALUE}` as an insertion-ordered
association list (Python dict iteration order). -/
def customAttrs (cfg : Config) : List (String × String) :=
  match cfg.ATTRIBUTE_KEY, cfg.ATTRIBUTE_VALUE with
  | some ak, some av => [(ak, av)]
  | _, _ => []

/-! ## Summary Metric Factory -/

/-- Python `int(q)` for the nonnegative-or-not rational `q`: truncation toward
zero (`time.time()` is a float number of seconds). -/
def pyInt (q : ℚ) : Int := Int.tdiv q.num (q.den : Int)

/-- `create_custom_summary_metric(function_name, custom_attrs)`.

The wall clock is passed explicitly: `now` models the value of `time.time()`
at the call.  `int(time.time()) * 1000000000` truncates to whole seconds and
scales to nanoseconds. -/
def create_custom_summary_metric (now : ℚ) (function_name : String)
    (custom_attrs : List (String × String)) : Metric :=
  let current_time_unix_nano : Int := pyInt now * 1000000000
  let labels : List StringKeyValue :=
    [ { key := "Namespace", value := "AWS/Lambda" },
      { key := "MetricName", value := "Custom" },
      { key := FUNCTION_NAME_LABEL_KEY, value := function_name } ]
      ++ custom_attrs.map (fun kv => { key := kv.1, value := kv.2 })
  let quantile_values : List ValueAtQuantile :=
    [ { quantile := 0, value := 1 },   -- Min
      { quantile := 1, value := 1 } ]  -- Max
  let data_point : DataPoint :=
    { labels := labels
      start_time_unix_nano := current_time_unix_nano
      time_unix_nano := current_time_unix_nano
      count := 1
      sum := 1
      quantile_values := quantile_values }
  { name := "amazonaws.com/AWS/Lambda/Custom"
    description := ""
    unit := "{Count}"
    data := some (.double_summary [data_point]) }

/-! ## Metric Matcher (`add_custom_summary_metric`)

The scan over one instrumentation scope is a fold whose state is the pair
`(processed_functions, new_metrics_to_add)`.  `processed_functions` is a
Python `set`, modelled as the list of values in insertion order (only
membership is ever queried). -/

/-- The body of the innermost `for label in dp.labels` loop. -/
def scanLabel (cfg : Config) (now : ℚ) (custom_attrs : List (String × String))
    (st : List String × List Metric) (label : StringKeyValue) :
    List String × List Metric :=
  if label.key = FUNCTION_NAME_LABEL_KEY ∧ label.value ∈ TARGET_FUNCTION_NAMES cfg
      ∧ label.value ∉ st.1 then
    (st.1 ++ [label.value],
     st.2 ++ [create_custom_summary_metric now label.value custom_attrs])
  else st

/-- `for dp in metric_data.data_points: for label in dp.labels: ...` -/
def scanDataPoint (cfg : Config) (now : ℚ) (custom_attrs : List (String × String))
    (st : List String × List Metric) (dp : DataPoint) :
    List String × List Metric :=
  dp.labels.foldl (scanLabel cfg now custom_attrs) st

/-- `metric.WhichOneof('data')` then the data-point loop; metrics with no
populated variant are skipped. -/
def scanMetric (cfg : Config) (now : ℚ) (custom_attrs : List (String × String))
    (st : List String × List Metric) (metric : Metric) :
    List String × List Metric :=
  match metric.data with
  | none => st
  | some metric_data =>
    metric_data.data_points.foldl (scanDataPoint cfg now custom_attrs) st

/-- The full scan of one scope's metric list, from the empty state. -/
def ilmScan (cfg : Config) (now : ℚ) (custom_attrs : List (String × String))
    (ilm : InstrumentationLibraryMetrics) : List String × List Metric :=
  ilm.metrics.foldl (scanMetric cfg now custom_attrs) ([], [])

/-- Per-scope processing: scan the metrics present before the pass, then
`ilm.metrics.extend(new_metrics_to_add)` (extending by `[]` is a no-op, so the
`if new_metrics_to_add:` guard needs no separate branch). -/
def processIlm (cfg : Config) (now : ℚ) (custom_attrs : List (String × String))
    (ilm : InstrumentationLibraryMetrics) : InstrumentationLibraryMetrics :=
  { ilm with metrics := ilm.metrics ++ (ilmScan cfg now custom_attrs ilm).2 }

/-- The data points the scan visits inside one metric: none when no oneof
variant is populated (`WhichOneof('data') is None`), else the populated
variant's points.  Statement-level companion of `scanMetric`. -/
def metricDataPoints (m : Metric) : List DataPoint :=
  match m.data with
  | none => []
  | some metric_data => metric_data.data_points

/-- Statement-level predicate: some data point reachable from `metrics`
(under a populated variant) carries a label `FunctionName = v`. -/
def labelMatchIn (metrics : List Metric) (v : String) : Prop :=
  ∃ m ∈ metrics, ∃ dp ∈ metricDataPoints m, ∃ l ∈ dp.labels,
    l.key = FUNCTION_NAME_LABEL_KEY ∧ l.value = v

instance (metrics : List Metric) (v : String) :
    Decidable (labelMatchIn metrics v) := by
  unfold labelMatchIn; infer_instance

/-- The three nested `for request / resource_metrics / ilm` loops: each scope
is processed independently. -/
def mapScopes (f : InstrumentationLibraryMetrics → InstrumentationLibraryMetrics)
    (requests : List ExportMetricsServiceRequest) :
    List ExportMetricsServiceRequest :=
  requests.map fun request =>
    { request with
      resource_metrics := request.resource_metrics.map fun rm =>
        { rm with
          instrumentation_library_metrics :=
            rm.instrumentation_library_metrics.map f } }

/-- `add_custom_summary_metric(requests)`: early return when
`not all([TARGET_FUNCTION_NAMES, ATTRIBUTE_KEY, ATTRIBUTE_VALUE])`. -/
def add_custom_summary_metric (cfg : Config) (now : ℚ)
    (requests : List ExportMetricsServiceRequest) :
    List ExportMetricsServiceRequest :=
  match cfg.ATTRIBUTE_KEY, cfg.ATTRIBUTE_VALUE with
  | some ak, some av =>
    if TARGET_FUNCTION_NAMES cfg = [] ∨ ak = "" ∨ av = "" then requests
    else mapScopes (processIlm cfg now [(ak, av)]) requests
  | _, _ => requests

/-! ## Varint framing

`encoder._VarintEncoder()` and `decoder._DecodeVarint32` from
`google.protobuf.internal`, the two library helpers the module uses for the
length-prefixed Firehose framing. -/

/-- `_VarintEncoder`: minimal little-endian base-128 encoding of a
nonnegative integer; every byte but the last carries the `0x80`
continuation bit. -/
def encodeVarint (n : Nat) : List Nat :=
  if n < 128 then [n] else (128 + n % 128) :: encodeVarint (n / 128)
termination_by n
decreasing_by exact Nat.div_lt_self (by omega) (by omega)

/-- `_DecodeVarint32(data, position)`, written consuming the list from the
front (`position` bookkeeping only ever moves forward).  Per the library
source: `result |= (b & 0x7f) << shift`; on a byte without the `0x80` bit the
result is masked to 32 bits (`result &= (1 << 32) - 1`, i.e. `% 2^32`) and
returned; running out of bytes is an `IndexError` and ten continuation bytes
raise `'Too many bytes when decoding varint.'` (`shift >= 64`), both modelled
as `none`. -/
def decVarint : List Nat → Nat → Nat → Option (Nat × List Nat)
  | [], _, _ => none
  | b :: rest, shift, result =>
    let result' := result ||| ((b % 128) <<< shift)
    if b % 256 < 128 then
      some (result' % 4294967296, rest)
    else if shift + 7 ≥ 64 then none
    else decVarint rest (shift + 7) result'

/-- A successful varint decode consumes at least one byte (used as the
termination measure of the stream-parsing loop below). -/
theorem decVarint_shrinks : ∀ (data : List Nat) (shift result msg_len : Nat)
    (rest : List Nat), decVarint data shift result = some (msg_len, rest) →
    rest.length < data.length := by
  intro data
  induction data with
  | nil => intro _ _ _ _ h; simp [decVarint] at h
  | cons b bs ih =>
    intro shift result msg_len rest h
    simp only [decVarint] at h
    split at h
    · simp only [Option.some.injEq, Prod.mk.injEq] at h
      simp [← h.2]
    · split at h
      · exact absurd h (by simp)
      · exact Nat.lt_trans (ih _ _ _ _ h) (by simp)

/-! ## Message codec (model of the protobuf library)

`request.ParseFromString` / `request.SerializeToString` are the schema
library's (de)serializer, external to this repository.  Modelled from the
spec: the Message Codec "wraps a schema (de)serializer for the ExportRequest
entity"; `decode` fails on malformed content, `encode` is total, and — as for
the real wire format — a message whose fields are all empty serializes to the
empty byte string and the empty byte string parses to the empty message.  The
concrete byte layout below is a canonical field-order encoding; each
`dec*Tok` token reader is the exact left inverse of the corresponding `enc*`
writer. -/

/-- Token reader for the unlimited minimal varint used inside the model
message encoding. -/
def decNatTok : List Nat → Option (Nat × List Nat)
  | [] => none
  | b :: rest =>
    if b < 128 then some (b, rest)
    else
      match decNatTok rest with
      | none => none
      | some (m, r) => some (m * 128 + (b - 128), r)

/-- Zigzag encoding of an integer as a natural number. -/
def zigzag (z : Int) : Nat :=
  if 0 ≤ z then 2 * z.toNat else 2 * (-z).toNat - 1

/-- Inverse of `zigzag`. -/
def unzigzag (n : Nat) : Int :=
  if n % 2 = 0 then ((n / 2 : Nat) : Int) else -(((n + 1) / 2 : Nat) : Int)

def encIntTok (z : Int) : List Nat := encodeVarint (zigzag z)

def decIntTok (d : List Nat) : Option (Int × List Nat) :=
  match decNatTok d with
  | none => none
  | some (n, r) => some (unzigzag n, r)

def encRatTok (q : ℚ) : List Nat := encIntTok q.num ++ encodeVarint q.den

def decRatTok (d : List Nat) : Option (ℚ × List Nat) :=
  match decIntTok d with
  | none => none
  | some (n, d1) =>
    match decNatTok d1 with
    | none => none
    | some (den, d2) => some (mkRat n den, d2)

def encStringTok (s : String) : List Nat :=
  encodeVarint s.data.length ++ s.data.map Char.toNat

def decCharTok : List Nat → Option (Char × List Nat)
  | [] => none
  | b :: rest => some (Char.ofNat b, rest)

/-- Read exactly `n` tokens with the element reader `dec`. -/
def decListTok (dec : List Nat → Option (α × List Nat)) :
    Nat → List Nat → Option (List α × List Nat)
  | 0, d => some ([], d)
  | n + 1, d =>
    match dec d with
    | none => none
    | some (a, d1) =>
      match decListTok dec n d1 with
      | none => none
      | some (as, d2) => some (a :: as, d2)

def decStringTok (d : List Nat) : Option (String × List Nat) :=
  match decNatTok d with
  | none => none
  | some (n, d1) =>
    match decListTok decCharTok n d1 with
    | none => none
    | some (cs, d2) => some (⟨cs⟩, d2)

/-- Length-prefixed sequence of encoded elements. -/
def encListTok (enc : α → List Nat) (xs : List α) : List Nat :=
  encodeVarint xs.length ++ (xs.map enc).flatten

def decLenListTok (dec : List Nat → Option (α × List Nat)) (d : List Nat) :
    Option (List α × List Nat) :=
  match decNatTok d with
  | none => none
  | some (n, d1) => decListTok dec n d1

def encLabel (l : StringKeyValue) : List Nat :=
  encStringTok l.key ++ encStringTok l.value

def decLabelTok (d : List Nat) : Option (StringKeyValue × List Nat) :=
  match decStringTok d with
  | none => none
  | some (k, d1) =>
    match decStringTok d1 with
    | none => none
    | some (v, d2) => some (⟨k, v⟩, d2)

def encVaq (v : ValueAtQuantile) : List Nat :=
  encRatTok v.quantile ++ encRatTok v.value

def decVaqTok (d : List Nat) : Option (ValueAtQuantile × List Nat) :=
  match decRatTok d with
  | none => none
  | some (q, d1) =>
    match decRatTok d1 with
    | none => none
    | some (v, d2) => some (⟨q, v⟩, d2)

def encDataPoint (dp : DataPoint) : List Nat :=
  encListTok encLabel dp.labels ++ encIntTok dp.start_time_unix_nano
    ++ encIntTok dp.time_unix_nano ++ encodeVarint dp.count
    ++ encRatTok dp.sum ++ encListTok encVaq dp.quantile_values

def decDataPointTok (d : List Nat) : Option (DataPoint × List Nat) :=
  match decLenListTok decLabelTok d with
  | none => none
  | some (labels, d1) =>
    match decIntTok d1 with
    | none => none
    | some (st, d2) =>
      match decIntTok d2 with
      | none => none
      | some (t, d3) =>
        match decNatTok d3 with
        | none => none
        | some (count, d4) =>
          match decRatTok d4 with
          | none => none
          | some (sum, d5) =>
            match decLenListTok decVaqTok d5 with
            | none => none
            | some (qvs, d6) => some (⟨labels, st, t, count, sum, qvs⟩, d6)

/-- The `data` oneof with its presence bit: tag `0` is "no variant set",
tags `1`–`7` name the variant. -/
def encMetricOneof : Option MetricData → List Nat
  | none => [0]
  | some (.int_gauge dps) => 1 :: encListTok encDataPoint dps
  | some (.double_gauge dps) => 2 :: encListTok encDataPoint dps
  | some (.int_sum dps) => 3 :: encListTok encDataPoint dps
  | some (.double_sum dps) => 4 :: encListTok encDataPoint dps
  | some (.int_histogram dps) => 5 :: encListTok encDataPoint dps
  | some (.double_histogram dps) => 6 :: encListTok encDataPoint dps
  | some (.double_summary dps) => 7 :: encListTok encDataPoint dps

def decMetricOneofTok (d : List Nat) : Option (Option MetricData × List Nat) :=
  match d with
  | [] => none
  | t :: rest =>
    if t = 0 then some (none, rest)
    else
      match decLenListTok decDataPointTok rest with
      | none => none
      | some (dps, d1) =>
        if t = 1 then some (some (.int_gauge dps), d1)
        else if t = 2 then some (some (.double_gauge dps), d1)
        else if t = 3 then some (some (.int_sum dps), d1)
        else if t = 4 then some (some (.double_sum dps), d1)
        else if t = 5 then some (some (.int_histogram dps), d1)
        else if t = 6 then some (some (.double_histogram dps), d1)
        else if t = 7 then some (some (.double_summary dps), d1)
        else none

def encMetric (m : Metric) : List Nat :=
  encStringTok m.name ++ encStringTok m.description ++ encStringTok m.unit
    ++ encMetricOneof m.data

def decMetricTok (d : List Nat) : Option (Metric × List Nat) :=
  match decStringTok d with
  | none => none
  | some (name, d1) =>
    match decStringTok d1 with
    | none => none
    | some (descr, d2) =>
      match decStringTok d2 with
      | none => none
      | some (unit, d3) =>
        match decMetricOneofTok d3 with
        | none => none
        | some (data, d4) => some (⟨name, descr, unit, data⟩, d4)

def encIlm (ilm : InstrumentationLibraryMetrics) : List Nat :=
  encStringTok ilm.library_name ++ encListTok encMetric ilm.metrics

def decIlmTok (d : List Nat) : Option (InstrumentationLibraryMetrics × List Nat) :=
  match decStringTok d with
  | none => none
  | some (n, d1) =>
    match decLenListTok decMetricTok d1 with
    | none => none
    | some (ms, d2) => some (⟨n, ms⟩, d2)

def encRM (rm : ResourceMetrics) : List Nat :=
  encListTok encLabel rm.resource
    ++ encListTok encIlm rm.instrumentation_library_metrics

def decRMTok (d : List Nat) : Option (ResourceMetrics × List Nat) :=
  match decLenListTok decLabelTok d with
  | none => none
  | some (res, d1) =>
    match decLenListTok decIlmTok d1 with
    | none => none
    | some (ilms, d2) => some (⟨res, ilms⟩, d2)

/-- Modelled from the spec: `request.SerializeToString()`.  A request whose
field list is empty serializes to the empty byte string, as the real wire
format does for a default message. -/
def serializeRequest (r : ExportMetricsServiceRequest) : List Nat :=
  match r.resource_metrics with
  | [] => []
  | _ :: _ => encListTok encRM r.resource_metrics

/-- Modelled from the spec: `request.ParseFromString(msg_buf)`.  The empty
byte string parses to the default (empty) message; otherwise the whole buffer
must be consumed, anything else is a schema decode error (`none`). -/
def parseRequestBytes (data : List Nat) : Option ExportMetricsServiceRequest :=
  match data with
  | [] => some ⟨[]⟩
  | _ :: _ =>
    match decLenListTok decRMTok data with
    | some (rms, []) => some ⟨rms⟩
    | _ => none

/-! ## Frame codec over whole streams -/

/-- `parse_delimited_stream(data)`: repeatedly read one varint length prefix,
slice exactly that many bytes (a Python slice `data[p : p + n]` silently
clamps at the end of the buffer, as `List.take` does), parse the slice, and
advance past both; the loop runs `while position < len(data)`. -/
def parse_delimited_stream (data : List Nat) :
    Option (List ExportMetricsServiceRequest) :=
  match data with
  | [] => some []
  | b :: bs =>
    match hdec : decVarint (b :: bs) 0 0 with
    | none => none
    | some (msg_len, after) =>
      match parseRequestBytes (after.take msg_len) with
      | none => none
      | some request =>
        match parse_delimited_stream (after.drop msg_len) with
        | none => none
        | some rest => some (request :: rest)
termination_by data.length
decreasing_by
  exact Nat.lt_of_le_of_lt (by simp)
    (decVarint_shrinks _ _ _ _ _ hdec)

/-- `serialize_requests_to_delimited_stream(requests)`: for each request,
its varint length prefix followed by its serialized bytes, concatenated in
input order. -/
def serialize_requests_to_delimited_stream
    (requests : List ExportMetricsServiceRequest) : List Nat :=
  (requests.map fun request =>
    let serialized_msg := serializeRequest request
    encodeVarint serialized_msg.length ++ serialized_msg).flatten

/-! ## Base64 (model of the `base64` library module)

Modelled from the spec: the invocation boundary exchanges record payloads as
base64 strings ("thin plumbing ... base64 wrapping").  Standard RFC 4648
alphabet with `=` padding; `b64decode` rejects strings that are not a
well-padded sequence of alphabet characters. -/

def b64Alphabet : List Char :=
  "ABCDEFGHIJKLMNOPQRSTUVWXYZabcdefghijklmnopqrstuvwxyz0123456789+/".data

def b64CharOf (n : Nat) : Char := b64Alphabet.getD n 'A'

def b64ValueOf (c : Char) : Option Nat := b64Alphabet.findIdx? (· = c)

/-- Encode bytes three at a time into four base64 characters. -/
def b64encodeChunks : List Nat → List Char
  | [] => []
  | [a] => [b64CharOf (a / 4), b64CharOf (a % 4 * 16), '=', '=']
  | [a, b] =>
    [b64CharOf (a / 4), b64CharOf (a % 4 * 16 + b / 16), b64CharOf (b % 16 * 4), '=']
  | a :: b :: c :: rest =>
    b64CharOf (a / 4) :: b64CharOf (a % 4 * 16 + b / 16)
      :: b64CharOf (b % 16 * 4 + c / 64) :: b64CharOf (c % 64)
      :: b64encodeChunks rest

def b64encode (bs : List Nat) : String := ⟨b64encodeChunks bs⟩

/-- Decode four characters at a time; padding may only close the string. -/
def b64decodeChunks : List Char → Option (List Nat)
  | [] => some []
  | c0 :: c1 :: c2 :: c3 :: rest =>
    match b64ValueOf c0, b64ValueOf c1 with
    | some v0, some v1 =>
      if c2 = '=' then
        if c3 = '=' ∧ rest = [] then some [v0 * 4 + v1 / 16] else none
      else
        match b64ValueOf c2 with
        | none => none
        | some v2 =>
          if c3 = '=' then
            if rest = [] then some [v0 * 4 + v1 / 16, v1 % 16 * 16 + v2 / 4]
            else none
          else
            match b64ValueOf c3 with
            | none => none
            | some v3 =>
              match b64decodeChunks rest with
              | none => none
              | some bs =>
                some ((v0 * 4 + v1 / 16) :: (v1 % 16 * 16 + v2 / 4)
                  :: (v2 % 4 * 64 + v3) :: bs)
    | _, _ => none
  | _ => none

def b64decode (s : String) : Option (List Nat) := b64decodeChunks s.data

/-! ## Record Pipeline (`handler`) -/

/-- One element of `event['records']`.  `recordId = none` models a record
dict with no `'recordId'` key: `record['recordId']` then raises `KeyError`
before the `try` block is entered. -/
structure FirehoseRecord where
  recordId : Option String
  data : String

/-- One element of the returned `records` list. -/
structure OutputRecord where
  recordId : String
  result : String
  data : String
deriving DecidableEq

/-- The body of the per-record `try`/`except`: any failure (bad base64, bad
framing, bad message bytes) is caught and converted into a
`ProcessingFailed` result carrying the original `record['data']` string. -/
def processRecord (cfg : Config) (now : ℚ) (record_id : String)
    (data : String) : OutputRecord :=
  match b64decode data with
  | none => { recordId := record_id, result := "ProcessingFailed", data := data }
  | some payload_bytes =>
    match parse_delimited_stream payload_bytes with
    | none => { recordId := record_id, result := "ProcessingFailed", data := data }
    | some metric_requests =>
      let requests := add_custom_summary_metric cfg now metric_requests
      let output_payload_bytes := serialize_requests_to_delimited_stream requests
      { recordId := record_id, result := "Ok",
        data := b64encode output_payload_bytes }

/-- `handler(event, context)`: one output record per input record, in order.
Reading `record['recordId']` happens before the `try`, so a record without an
identifier raises out of the whole invocation — modelled by `none`. -/
def handler (cfg : Config) (now : ℚ) (records : List FirehoseRecord) :
    Option (List OutputRecord) :=
  records.mapM fun record =>
    (record.recordId).map fun record_id =>
      processRecord cfg now record_id record.data

/-! # Lemmas

## Left-inverse lemmas for the model message codec -/

theorem encodeVarint_ne_nil (n : Nat) : encodeVarint n ≠ [] := by
  rw [encodeVarint]; split <;> simp

theorem decNatTok_enc (n : Nat) :
    ∀ rest, decNatTok (encodeVarint n ++ rest) = some (n, rest) := by
  induction n using Nat.strong_induction_on with
  | _ n ih =>
    intro rest
    rw [encodeVarint]
    split
    · rename_i h
      simp [decNatTok, h]
    · rename_i h
      simp only [List.cons_append, decNatTok]
      rw [if_neg (by omega)]
      simp only [List.append_eq]
      rw [ih (n / 128) (Nat.div_lt_self (by omega) (by omega)) rest]
      simp only [Option.some.injEq, Prod.mk.injEq]
      exact ⟨by omega, trivial⟩

theorem unzigzag_zigzag (z : Int) : unzigzag (zigzag z) = z := by
  unfold zigzag unzigzag
  split <;> split <;> omega

theorem decIntTok_enc (z : Int) (rest : List Nat) :
    decIntTok (encIntTok z ++ rest) = some (z, rest) := by
  simp [encIntTok, decIntTok, decNatTok_enc, unzigzag_zigzag]

theorem decRatTok_enc (q : ℚ) (rest : List Nat) :
    decRatTok (encRatTok q ++ rest) = some (q, rest) := by
  simp [encRatTok, decRatTok, List.append_assoc, decIntTok_enc, decNatTok_enc,
    Rat.mkRat_self]

theorem decListTok_enc {α : Type} (enc : α → List Nat)
    (dec : List Nat → Option (α × List Nat))
    (h : ∀ x rest, dec (enc x ++ rest) = some (x, rest)) :
    ∀ (xs : List α) (rest : List Nat),
      decListTok dec xs.length ((xs.map enc).flatten ++ rest) = some (xs, rest) := by
  intro xs
  induction xs with
  | nil => intro rest; simp [decListTok]
  | cons a as ih => intro rest; simp [decListTok, List.append_assoc, h, ih]

theorem decLenListTok_enc {α : Type} (enc : α → List Nat)
    (dec : List Nat → Option (α × List Nat))
    (h : ∀ x rest, dec (enc x ++ rest) = some (x, rest))
    (xs : List α) (rest : List Nat) :
    decLenListTok dec (encListTok enc xs ++ rest) = some (xs, rest) := by
  simp [encListTok, decLenListTok, List.append_assoc, decNatTok_enc,
    decListTok_enc enc dec h]

theorem flatten_map_singleton {α β : Type} (f : α → β) (l : List α) :
    (l.map (fun a => [f a])).flatten = l.map f := by
  induction l <;> simp [*]

theorem decStringTok_enc (s : String) (rest : List Nat) :
    decStringTok (encStringTok s ++ rest) = some (s, rest) := by
  have h := decListTok_enc (fun c : Char => [c.toNat]) decCharTok
    (fun c r => by simp [decCharTok]) s.data rest
  rw [flatten_map_singleton] at h
  rw [show s.data.length = s.length from rfl] at h
  simp [encStringTok, decStringTok, List.append_assoc, decNatTok_enc, h]

theorem decLabelTok_enc (l : StringKeyValue) (rest : List Nat) :
    decLabelTok (encLabel l ++ rest) = some (l, rest) := by
  simp [encLabel, decLabelTok, List.append_assoc, decStringTok_enc]

theorem decVaqTok_enc (v : ValueAtQuantile) (rest : List Nat) :
    decVaqTok (encVaq v ++ rest) = some (v, rest) := by
  simp [encVaq, decVaqTok, List.append_assoc, decRatTok_enc]

theorem decDataPointTok_enc (dp : DataPoint) (rest : List Nat) :
    decDataPointTok (encDataPoint dp ++ rest) = some (dp, rest) := by
  simp [encDataPoint, decDataPointTok, List.append_assoc,
    decLenListTok_enc encLabel decLabelTok decLabelTok_enc,
    decLenListTok_enc encVaq decVaqTok decVaqTok_enc,
    decIntTok_enc, decNatTok_enc, decRatTok_enc]

theorem decMetricOneofTok_enc (md : Option MetricData) (rest : List Nat) :
    decMetricOneofTok (encMetricOneof md ++ rest) = some (md, rest) := by
  have hdp := decLenListTok_enc encDataPoint decDataPointTok decDataPointTok_enc
  cases md with
  | none => simp [encMetricOneof, decMetricOneofTok]
  | some md => cases md <;> simp [encMetricOneof, decMetricOneofTok, hdp]

theorem decMetricTok_enc (m : Metric) (rest : List Nat) :
    decMetricTok (encMetric m ++ rest) = some (m, rest) := by
  simp [encMetric, decMetricTok, List.append_assoc, decStringTok_enc,
    decMetricOneofTok_enc]

theorem decIlmTok_enc (ilm : InstrumentationLibraryMetrics) (rest : List Nat) :
    decIlmTok (encIlm ilm ++ rest) = some (ilm, rest) := by
  simp [encIlm, decIlmTok, List.append_assoc, decStringTok_enc,
    decLenListTok_enc encMetric decMetricTok decMetricTok_enc]

theorem decRMTok_enc (rm : ResourceMetrics) (rest : List Nat) :
    decRMTok (encRM rm ++ rest) = some (rm, rest) := by
  simp [encRM, decRMTok, List.append_assoc,
    decLenListTok_enc encLabel decLabelTok decLabelTok_enc,
    decLenListTok_enc encIlm decIlmTok decIlmTok_enc]

theorem parseRequestBytes_serialize (r : ExportMetricsServiceRequest) :
    parseRequestBytes (serializeRequest r) = some r := by
  obtain ⟨rms⟩ := r
  cases rms with
  | nil => simp [serializeRequest, parseRequestBytes]
  | cons a as =>
    have h := decLenListTok_enc encRM decRMTok decRMTok_enc (a :: as) []
    rw [List.append_nil] at h
    have hne : encListTok encRM (a :: as) ≠ [] := by
      intro hc
      exact encodeVarint_ne_nil _ (List.append_eq_nil.mp hc).1
    obtain ⟨b, bs, hbs⟩ := List.exists_cons_of_ne_nil hne
    simp only [serializeRequest, hbs]
    rw [hbs] at h
    simp [parseRequestBytes, h]

/-! ## Varint and stream framing lemmas -/

/-- Or-ing into bit positions at or above `2 ^ s` is addition when the low
part fits below `2 ^ s`. -/
theorem lor_shiftLeft_eq_add {a : Nat} (d s : Nat) (ha : a < 2 ^ s) :
    a ||| (d <<< s) = 2 ^ s * d + a := by
  apply Nat.eq_of_testBit_eq
  intro j
  rw [Nat.testBit_or, Nat.testBit_shiftLeft, Nat.testBit_mul_pow_two_add d ha j]
  by_cases hj : j < s
  · simp [hj, Nat.not_le.mpr hj]
  · have hj' : s ≤ j := Nat.not_lt.mp hj
    have hza : a.testBit j = false :=
      Nat.testBit_lt_two_pow
        (Nat.lt_of_lt_of_le ha (Nat.pow_le_pow_right (by omega) hj'))
    simp [hj, hj', hza]

/-- `_DecodeVarint32` is a left inverse of the encoder below the shift and
mask limits: decoding an encoded `m` from an intermediate loop state
accumulates `m`'s bits above the bits already collected. -/
theorem decVarint_enc : ∀ (m shift acc : Nat) (rest : List Nat),
    m < 2 ^ (56 - shift) → shift ≤ 56 → acc < 2 ^ shift →
    decVarint (encodeVarint m ++ rest) shift acc =
      some ((acc ||| (m <<< shift)) % 4294967296, rest) := by
  intro m
  induction m using Nat.strong_induction_on with
  | _ m ih =>
    intro shift acc rest hm hshift hacc
    rw [encodeVarint]
    split
    · rename_i h
      simp only [List.cons_append, decVarint]
      rw [if_pos (by omega), Nat.mod_eq_of_lt h]
      rfl
    · rename_i h
      -- the continuation byte forces at least 8 value bits, so `shift ≤ 48`
      have hs48 : shift ≤ 48 := by
        by_contra hgt
        have h7 : 56 - shift ≤ 7 := by omega
        have : (2 : Nat) ^ (56 - shift) ≤ 2 ^ 7 :=
          Nat.pow_le_pow_right (by omega) h7
        omega
      simp only [List.cons_append, decVarint]
      rw [if_neg (by omega), if_neg (by omega)]
      have hmod : (128 + m % 128) % 128 = m % 128 := by omega
      rw [hmod]
      have hstep : acc ||| ((m % 128) <<< shift) = 2 ^ shift * (m % 128) + acc :=
        lor_shiftLeft_eq_add (m % 128) shift hacc
      have hlt : acc ||| ((m % 128) <<< shift) < 2 ^ (shift + 7) := by
        rw [hstep, pow_add]
        have h1 : m % 128 ≤ 127 := by omega
        calc 2 ^ shift * (m % 128) + acc
            < 2 ^ shift * (m % 128) + 2 ^ shift := by omega
          _ = 2 ^ shift * (m % 128 + 1) := by ring
          _ ≤ 2 ^ shift * 128 := by
              exact Nat.mul_le_mul_left _ (by omega)
          _ = 2 ^ shift * 2 ^ 7 := by norm_num
      have hdiv : m / 128 < 2 ^ (56 - (shift + 7)) := by
        have hexp : (2 : Nat) ^ (56 - shift) = 2 ^ (56 - (shift + 7)) * 128 := by
          rw [show (128 : Nat) = 2 ^ 7 from rfl, ← pow_add]
          congr 1
          omega
        rw [Nat.div_lt_iff_lt_mul (by omega)]
        omega
      simp only [List.append_eq]
      rw [ih (m / 128) (Nat.div_lt_self (by omega) (by omega)) (shift + 7)
        (acc ||| ((m % 128) <<< shift)) rest hdiv (by omega) hlt]
      -- merge the two disjoint chunks back into `m <<< shift`
      have hmerge : acc ||| ((m % 128) <<< shift) ||| ((m / 128) <<< (shift + 7))
          = acc ||| (m <<< shift) := by
        rw [lor_shiftLeft_eq_add (m / 128) (shift + 7) hlt, hstep,
          lor_shiftLeft_eq_add m shift hacc, pow_add]
        have hdm : 128 * (m / 128) + m % 128 = m := by omega
        calc 2 ^ shift * 2 ^ 7 * (m / 128) + (2 ^ shift * (m % 128) + acc)
            = 2 ^ shift * (128 * (m / 128) + m % 128) + acc := by ring
          _ = 2 ^ shift * m + acc := by rw [hdm]
      rw [hmerge]

/-- Top-level form: decoding the minimal varint of a value below `2 ^ 32`
from the initial loop state recovers it exactly. -/
theorem decVarint_enc_top (m : Nat) (rest : List Nat) (hm : m < 4294967296) :
    decVarint (encodeVarint m ++ rest) 0 0 = some (m, rest) := by
  have h := decVarint_enc m 0 0 rest (by norm_num; omega) (by omega) (by norm_num)
  rw [h]
  simp [Nat.shiftLeft_zero, Nat.zero_or, Nat.mod_eq_of_lt hm]

/-- Unfolding step of the stream loop when the varint prefix decodes. -/
theorem parse_step (data : List Nat) (hne : data ≠ []) (msg_len : Nat)
    (after : List Nat) (hdec : decVarint data 0 0 = some (msg_len, after)) :
    parse_delimited_stream data =
      match parseRequestBytes (after.take msg_len) with
      | none => none
      | some request =>
        match parse_delimited_stream (after.drop msg_len) with
        | none => none
        | some rest => some (request :: rest) := by
  cases data with
  | nil => exact absurd rfl hne
  | cons b bs =>
    rw [parse_delimited_stream]
    split
    · rename_i heq
      rw [heq] at hdec
      exact absurd hdec (by simp)
    · rename_i ml af heq
      rw [heq] at hdec
      simp only [Option.some.injEq, Prod.mk.injEq] at hdec
      rw [hdec.1, hdec.2]

/-- Unfolding step of the stream loop when the varint prefix fails. -/
theorem parse_step_none (data : List Nat) (hne : data ≠ [])
    (hdec : decVarint data 0 0 = none) :
    parse_delimited_stream data = none := by
  cases data with
  | nil => exact absurd rfl hne
  | cons b bs =>
    rw [parse_delimited_stream]
    split
    · rfl
    · rename_i ml af heq
      rw [heq] at hdec
      exact absurd hdec (by simp)

theorem parse_nil : parse_delimited_stream [] = some [] := by
  rw [parse_delimited_stream]

/-- Decoding a well-formed stream followed by `rest` yields the stream's
messages followed by whatever `rest` decodes to. -/
theorem parse_serialize_append (M : List ExportMetricsServiceRequest)
    (rest : List Nat)
    (hlen : ∀ r ∈ M, (serializeRequest r).length < 4294967296) :
    parse_delimited_stream (serialize_requests_to_delimited_stream M ++ rest)
      = (parse_delimited_stream rest).map (fun t => M ++ t) := by
  induction M with
  | nil =>
    simp only [serialize_requests_to_delimited_stream, List.map_nil,
      List.flatten_nil, List.nil_append]
    cases parse_delimited_stream rest <;> simp
  | cons r M ih =>
    have hr := hlen r (by simp)
    have hM : ∀ x ∈ M, (serializeRequest x).length < 4294967296 :=
      fun x hx => hlen x (by simp [hx])
    have hflat : serialize_requests_to_delimited_stream (r :: M) ++ rest
        = encodeVarint (serializeRequest r).length
            ++ (serializeRequest r
                ++ (serialize_requests_to_delimited_stream M ++ rest)) := by
      simp [serialize_requests_to_delimited_stream, List.append_assoc]
    rw [hflat]
    have hdec := decVarint_enc_top (serializeRequest r).length
      (serializeRequest r ++ (serialize_requests_to_delimited_stream M ++ rest)) hr
    rw [parse_step _ (by simp [encodeVarint_ne_nil]) _ _ hdec,
      List.take_left' rfl, List.drop_left' rfl, parseRequestBytes_serialize, ih hM]
    cases parse_delimited_stream rest <;> simp

/-! ## Matcher scan invariants -/

theorem foldl_preserve {σ α : Type} {P : σ → Prop} {step : σ → α → σ}
    (h : ∀ s x, P s → P (step s x)) :
    ∀ (xs : List α) (s : σ), P s → P (xs.foldl step s) := by
  intro xs
  induction xs with
  | nil => intro s hs; simpa using hs
  | cons a as ih => intro s hs; simpa using ih _ (h s a hs)

/-- `scanMetric` is the data-point fold over the populated variant's points
(none when no variant is populated). -/
theorem scanMetric_eq (cfg : Config) (now : ℚ) (attrs : List (String × String))
    (st : List String × List Metric) (m : Metric) :
    scanMetric cfg now attrs st m
      = (metricDataPoints m).foldl (scanDataPoint cfg now attrs) st := by
  cases hm : m.data <;> simp [scanMetric, metricDataPoints, hm]

/-- The two state components stay in lockstep: the list of metrics to add is
the factory image of the processed-function list. -/
theorem ilmScan_snd (cfg : Config) (now : ℚ) (attrs : List (String × String))
    (ilm : InstrumentationLibraryMetrics) :
    (ilmScan cfg now attrs ilm).2
      = ((ilmScan cfg now attrs ilm).1).map
          (fun v => create_custom_summary_metric now v attrs) := by
  have hlabel : ∀ (s : List String × List Metric) (l : StringKeyValue),
      s.2 = s.1.map (fun v => create_custom_summary_metric now v attrs) →
      (scanLabel cfg now attrs s l).2
        = ((scanLabel cfg now attrs s l).1).map
            (fun v => create_custom_summary_metric now v attrs) := by
    intro s l hs
    unfold scanLabel
    split <;> simp [hs]
  have hdp : ∀ (s : List String × List Metric) (dp : DataPoint),
      s.2 = s.1.map (fun v => create_custom_summary_metric now v attrs) →
      (scanDataPoint cfg now attrs s dp).2
        = ((scanDataPoint cfg now attrs s dp).1).map
            (fun v => create_custom_summary_metric now v attrs) :=
    fun s dp hs => foldl_preserve hlabel dp.labels s hs
  have hm : ∀ (s : List String × List Metric) (m : Metric),
      s.2 = s.1.map (fun v => create_custom_summary_metric now v attrs) →
      (scanMetric cfg now attrs s m).2
        = ((scanMetric cfg now attrs s m).1).map
            (fun v => create_custom_summary_metric now v attrs) := by
    intro s m hs
    rw [scanMetric_eq]
    exact foldl_preserve hdp (metricDataPoints m) s hs
  exact foldl_preserve hm ilm.metrics ([], []) (by simp)

/-- The processed-function list never acquires duplicates. -/
theorem ilmScan_nodup (cfg : Config) (now : ℚ) (attrs : List (String × String))
    (ilm : InstrumentationLibraryMetrics) :
    (ilmScan cfg now attrs ilm).1.Nodup := by
  have hlabel : ∀ (s : List String × List Metric) (l : StringKeyValue),
      s.1.Nodup → (scanLabel cfg now attrs s l).1.Nodup := by
    intro s l hs
    unfold scanLabel
    split
    · rename_i hcond
      simp [List.nodup_append, hs, hcond.2.2]
    · exact hs
  have hdp : ∀ (s : List String × List Metric) (dp : DataPoint),
      s.1.Nodup → (scanDataPoint cfg now attrs s dp).1.Nodup :=
    fun s dp hs => foldl_preserve hlabel dp.labels s hs
  have hm : ∀ (s : List String × List Metric) (m : Metric),
      s.1.Nodup → (scanMetric cfg now attrs s m).1.Nodup := by
    intro s m hs
    rw [scanMetric_eq]
    exact foldl_preserve hdp (metricDataPoints m) s hs
  exact foldl_preserve hm ilm.metrics ([], []) (by simp)

/-- Membership after the label loop: a value is collected exactly when it was
already collected or it is a target value carried by one of the labels. -/
theorem foldl_scanLabel_mem (cfg : Config) (now : ℚ)
    (attrs : List (String × String)) (v : String) :
    ∀ (ls : List StringKeyValue) (st : List String × List Metric),
      v ∈ (ls.foldl (scanLabel cfg now attrs) st).1 ↔
        v ∈ st.1 ∨ (v ∈ TARGET_FUNCTION_NAMES cfg ∧
          ∃ l ∈ ls, l.key = FUNCTION_NAME_LABEL_KEY ∧ l.value = v) := by
  intro ls
  induction ls with
  | nil => intro st; simp
  | cons l ls ih =>
    intro st
    rw [List.foldl_cons, ih]
    unfold scanLabel
    split
    · rename_i hcond
      obtain ⟨hk, hmem, hnot⟩ := hcond
      constructor
      · rintro (hL | ⟨hT, x, hx, hkx, hvx⟩)
        · rcases List.mem_append.mp hL with h1 | h1
          · exact Or.inl h1
          · have hv : v = l.value := List.mem_singleton.mp h1
            exact Or.inr ⟨by rw [hv]; exact hmem, l, List.mem_cons_self l ls,
              hk, hv.symm⟩
        · exact Or.inr ⟨hT, x, List.mem_cons_of_mem l hx, hkx, hvx⟩
      · rintro (h1 | ⟨hT, x, hx, hkx, hvx⟩)
        · exact Or.inl (List.mem_append.mpr (Or.inl h1))
        · rcases List.mem_cons.mp hx with hx | hx
          · subst hx
            exact Or.inl (List.mem_append.mpr
              (Or.inr (List.mem_singleton.mpr hvx.symm)))
          · exact Or.inr ⟨hT, x, hx, hkx, hvx⟩
    · rename_i hcond
      constructor
      · rintro (h1 | ⟨hT, x, hx, hkx, hvx⟩)
        · exact Or.inl h1
        · exact Or.inr ⟨hT, x, List.mem_cons_of_mem l hx, hkx, hvx⟩
      · rintro (h1 | ⟨hT, x, hx, hkx, hvx⟩)
        · exact Or.inl h1
        · rcases List.mem_cons.mp hx with hx | hx
          · subst hx
            have hvT : x.value ∈ TARGET_FUNCTION_NAMES cfg := by
              rw [hvx]; exact hT
            have hst : x.value ∈ st.1 := by
              by_contra hne
              exact hcond ⟨hkx, hvT, hne⟩
            exact Or.inl (by rw [← hvx]; exact hst)
          · exact Or.inr ⟨hT, x, hx, hkx, hvx⟩

theorem foldl_scanDataPoint_mem (cfg : Config) (now : ℚ)
    (attrs : List (String × String)) (v : String) :
    ∀ (dps : List DataPoint) (st : List String × List Metric),
      v ∈ (dps.foldl (scanDataPoint cfg now attrs) st).1 ↔
        v ∈ st.1 ∨ (v ∈ TARGET_FUNCTION_NAMES cfg ∧
          ∃ dp ∈ dps, ∃ l ∈ dp.labels,
            l.key = FUNCTION_NAME_LABEL_KEY ∧ l.value = v) := by
  intro dps
  induction dps with
  | nil => intro st; simp
  | cons dp dps ih =>
    intro st
    rw [List.foldl_cons, ih]
    unfold scanDataPoint
    rw [foldl_scanLabel_mem]
    constructor
    · rintro (⟨h1 | ⟨hT, hl⟩⟩ | ⟨hT, x, hx, hl⟩)
      · exact Or.inl h1
      · exact Or.inr ⟨hT, dp, by simp, hl⟩
      · exact Or.inr ⟨hT, x, by simp [hx], hl⟩
    · rintro (h1 | ⟨hT, x, hx, hl⟩)
      · exact Or.inl (Or.inl h1)
      · rcases List.mem_cons.mp hx with hx | hx
        · subst hx; exact Or.inl (Or.inr ⟨hT, hl⟩)
        · exact Or.inr ⟨hT, x, hx, hl⟩

theorem foldl_scanMetric_mem (cfg : Config) (now : ℚ)
    (attrs : List (String × String)) (v : String) :
    ∀ (ms : List Metric) (st : List String × List Metric),
      v ∈ (ms.foldl (scanMetric cfg now attrs) st).1 ↔
        v ∈ st.1 ∨ (v ∈ TARGET_FUNCTION_NAMES cfg ∧ labelMatchIn ms v) := by
  intro ms
  induction ms with
  | nil => intro st; simp [labelMatchIn]
  | cons m ms ih =>
    intro st
    rw [List.foldl_cons, ih, scanMetric_eq, foldl_scanDataPoint_mem]
    unfold labelMatchIn
    constructor
    · rintro (⟨h1 | ⟨hT, hl⟩⟩ | ⟨hT, x, hx, hl⟩)
      · exact Or.inl h1
      · exact Or.inr ⟨hT, m, by simp, hl⟩
      · exact Or.inr ⟨hT, x, by simp [hx], hl⟩
    · rintro (h1 | ⟨hT, x, hx, hl⟩)
      · exact Or.inl (Or.inl h1)
      · rcases List.mem_cons.mp hx with hx | hx
        · subst hx; exact Or.inl (Or.inr ⟨hT, hl⟩)
        · exact Or.inr ⟨hT, x, hx, hl⟩

/-- Characterization of the collected values of one scope's scan. -/
theorem ilmScan_fst_mem (cfg : Config) (now : ℚ)
    (attrs : List (String × String)) (ilm : InstrumentationLibraryMetrics)
    (v : String) :
    v ∈ (ilmScan cfg now attrs ilm).1 ↔
      v ∈ TARGET_FUNCTION_NAMES cfg ∧ labelMatchIn ilm.metrics v := by
  unfold ilmScan
  rw [foldl_scanMetric_mem]
  simp

/-- The factory output determines the function value (the third label). -/
theorem create_inj (now : ℚ) (attrs : List (String × String)) :
    ∀ a b, create_custom_summary_metric now a attrs
      = create_custom_summary_metric now b attrs → a = b := by
  intro a b h
  simpa [create_custom_summary_metric] using h

/-- Exactly one synthetic metric is produced per matched value. -/
theorem ilmScan_count (cfg : Config) (now : ℚ)
    (attrs : List (String × String)) (ilm : InstrumentationLibraryMetrics)
    (v : String) (hv : v ∈ TARGET_FUNCTION_NAMES cfg)
    (hmatch : labelMatchIn ilm.metrics v) :
    ((ilmScan cfg now attrs ilm).2).count
      (create_custom_summary_metric now v attrs) = 1 := by
  rw [ilmScan_snd]
  rw [List.count_map_of_injective _ _
    (fun a b => create_inj now attrs a b)]
  exact List.count_eq_one_of_mem (ilmScan_nodup cfg now attrs ilm)
    ((ilmScan_fst_mem cfg now attrs ilm v).mpr ⟨hv, hmatch⟩)

/-! ## Record pipeline lemmas -/

theorem processRecord_recordId (cfg : Config) (now : ℚ) (rid d : String) :
    (processRecord cfg now rid d).recordId = rid := by
  unfold processRecord
  split
  · rfl
  · split <;> rfl

/-- A record whose payload fails base64 decoding or stream parsing comes
back marked failed, with the original data string untouched. -/
theorem processRecord_fail (cfg : Config) (now : ℚ) (rid d : String)
    (h : (b64decode d).bind parse_delimited_stream = none) :
    processRecord cfg now rid d
      = { recordId := rid, result := "ProcessingFailed", data := d } := by
  unfold processRecord
  rcases hb : b64decode d with _ | p
  · rfl
  · rw [hb] at h
    simp only [Option.some_bind] at h
    simp [h]

/-- A record whose payload decodes comes back marked `Ok`. -/
theorem processRecord_ok (cfg : Config) (now : ℚ) (rid d : String)
    (h : ((b64decode d).bind parse_delimited_stream).isSome) :
    (processRecord cfg now rid d).result = "Ok" := by
  unfold processRecord
  rcases hb : b64decode d with _ | p
  · rw [hb] at h; simp at h
  · rw [hb] at h
    simp only [Option.some_bind] at h
    obtain ⟨reqs, hr⟩ := Option.isSome_iff_exists.mp h
    simp [hr]

/-- When every record has an identifier, the handler succeeds and is a map
over the records. -/
theorem handler_eq_map (cfg : Config) (now : ℚ) (records : List FirehoseRecord)
    (hid : ∀ r ∈ records, (r.recordId).isSome) :
    handler cfg now records
      = some (records.map fun r =>
          processRecord cfg now ((r.recordId).getD "") r.data) := by
  induction records with
  | nil => rfl
  | cons r rs ih =>
    obtain ⟨rid, hrid⟩ := Option.isSome_iff_exists.mp (hid r (by simp))
    have hrest := ih (fun x hx => hid x (by simp [hx]))
    simp only [handler] at hrest ⊢
    rw [List.mapM_cons, hrid, hrest]
    simp [hrid]

/-- A record with no identifier aborts the whole invocation. -/
theorem handler_missing_id (cfg : Config) (now : ℚ)
    (records : List FirehoseRecord) (r : FirehoseRecord) (hr : r ∈ records)
    (hnone : r.recordId = none) :
    handler cfg now records = none := by
  induction records with
  | nil => exact absurd hr (by simp)
  | cons a rs ih =>
    simp only [handler, List.mapM_cons]
    rcases List.mem_cons.mp hr with hr | hr
    · subst hr
      rw [hnone]
      rfl
    · cases ha : a.recordId with
      | none => rfl
      | some rid =>
        have hrs := ih hr
        simp only [handler] at hrs
        rw [hrs]
        simp

/-- A predicate holding at exactly one index is counted exactly once. -/
theorem countP_eq_one_unique {α : Type} (p : α → Bool) :
    ∀ (l : List α) (j : Nat), j < l.length →
      (∀ i (hi : i < l.length), (p (l.get ⟨i, hi⟩) = true ↔ i = j)) →
      l.countP p = 1 := by
  intro l
  induction l with
  | nil => intro j hj _; simp at hj
  | cons a l ih =>
    intro j hj h
    rw [List.countP_cons]
    cases j with
    | zero =>
      have ha : p a = true := (h 0 (by simp)).mpr rfl
      have hl : l.countP p = 0 := by
        rw [List.countP_eq_zero]
        intro x hx
        obtain ⟨⟨i, hi⟩, hget⟩ := List.mem_iff_get.mp hx
        intro hpx
        have hi1 : i + 1 < (a :: l).length := by simp; omega
        have := (h (i + 1) hi1).mp (by
          rw [show (a :: l).get ⟨i + 1, hi1⟩ = l.get ⟨i, hi⟩ from rfl, hget]
          exact hpx)
        omega
      simp [ha, hl]
    | succ k =>
      have ha : p a = false := by
        by_contra hpa
        have h0 := (h 0 (by simp)).mp (by simpa using hpa)
        omega
      have hk : k < l.length := by simp at hj; omega
      have hl : l.countP p = 1 := by
        refine ih k hk (fun i hi => ?_)
        have hi1 : i + 1 < (a :: l).length := by simp; omega
        have hstep := h (i + 1) hi1
        rw [show (a :: l).get ⟨i + 1, hi1⟩ = l.get ⟨i, hi⟩ from rfl] at hstep
        rw [hstep]
        constructor <;> omega
      simp [ha, hl]

/-! ## Configuration lemmas -/

/-- Incomplete configuration short-circuits the augmentation. -/
theorem add_id_of_incomplete (cfg : Config) (now : ℚ)
    (requests : List ExportMetricsServiceRequest)
    (h : configComplete cfg = false) :
    add_custom_summary_metric cfg now requests = requests := by
  unfold add_custom_summary_metric
  unfold configComplete at h
  rcases hak : cfg.ATTRIBUTE_KEY with _ | ak <;>
    rcases hav : cfg.ATTRIBUTE_VALUE with _ | av
  · rfl
  · rfl
  · rfl
  · by_cases hC : TARGET_FUNCTION_NAMES cfg = [] ∨ ak = "" ∨ av = ""
    · show (if TARGET_FUNCTION_NAMES cfg = [] ∨ ak = "" ∨ av = ""
        then requests
        else mapScopes (processIlm cfg now [(ak, av)]) requests) = requests
      rw [if_pos hC]
    · exfalso
      rw [hak, hav] at h
      simp [hC] at h

/-- Complete configuration runs the per-scope pass with the single custom
attribute pair. -/
theorem add_eq_mapScopes (cfg : Config) (now : ℚ)
    (requests : List ExportMetricsServiceRequest)
    (h : configComplete cfg = true) :
    add_custom_summary_metric cfg now requests
      = mapScopes (processIlm cfg now (customAttrs cfg)) requests := by
  unfold add_custom_summary_metric customAttrs
  unfold configComplete at h
  rcases hak : cfg.ATTRIBUTE_KEY with _ | ak <;>
    rcases hav : cfg.ATTRIBUTE_VALUE with _ | av
  · rw [hak, hav] at h; simp at h
  · rw [hak, hav] at h; simp at h
  · rw [hak, hav] at h; simp at h
  · rw [hak, hav] at h
    have hC : ¬(TARGET_FUNCTION_NAMES cfg = [] ∨ ak = "" ∨ av = "") := by
      simpa using h
    show (if TARGET_FUNCTION_NAMES cfg = [] ∨ ak = "" ∨ av = ""
      then requests
      else mapScopes (processIlm cfg now [(ak, av)]) requests)
        = mapScopes (processIlm cfg now [(ak, av)]) requests
    rw [if_neg hC]

/-- The Python split never produces an empty list of pieces. -/
theorem splitCommaChars_ne_nil : ∀ l : List Char, splitCommaChars l ≠ [] := by
  intro l
  induction l with
  | nil => simp [splitCommaChars]
  | cons a l ih =>
    obtain ⟨p, ps, hsp⟩ := List.exists_cons_of_ne_nil ih
    simp only [splitCommaChars, hsp]
    split <;> simp

/-- Characters of a split piece come from the input and are never the
separator. -/
theorem splitCommaChars_subset : ∀ (l : List Char) (piece : List Char),
    piece ∈ splitCommaChars l → ∀ c ∈ piece, c ∈ l ∧ c ≠ ',' := by
  intro l
  induction l with
  | nil =>
    intro piece hp c hc
    simp only [splitCommaChars, List.mem_singleton] at hp
    subst hp
    simp at hc
  | cons a l ih =>
    intro piece hp c hc
    have hne := splitCommaChars_ne_nil l
    obtain ⟨p, ps, hsp⟩ := List.exists_cons_of_ne_nil hne
    simp only [splitCommaChars, hsp] at hp
    by_cases hc2 : a = ','
    · rw [if_pos hc2] at hp
      rcases List.mem_cons.mp hp with hp | hp
      · subst hp; simp at hc
      · have hm : piece ∈ splitCommaChars l := by rw [hsp]; exact hp
        obtain ⟨h1, h2⟩ := ih piece hm c hc
        exact ⟨List.mem_cons_of_mem _ h1, h2⟩
    · rw [if_neg hc2] at hp
      rcases List.mem_cons.mp hp with hp | hp
      · subst hp
        rcases List.mem_cons.mp hc with hc | hc
        · subst hc; exact ⟨List.mem_cons_self _ _, hc2⟩
        · have hm : p ∈ splitCommaChars l := by
            rw [hsp]; exact List.mem_cons_self _ _
          obtain ⟨h1, h2⟩ := ih p hm c hc
          exact ⟨List.mem_cons_of_mem _ h1, h2⟩
      · have hm : piece ∈ splitCommaChars l := by
          rw [hsp]; exact List.mem_cons_of_mem _ hp
        obtain ⟨h1, h2⟩ := ih piece hm c hc
        exact ⟨List.mem_cons_of_mem _ h1, h2⟩

/-- Stripping an all-whitespace string yields the empty string. -/
theorem pyStrip_eq_empty (s : String) (h : ∀ c ∈ s.data, isPySpace c) :
    pyStrip s = "" := by
  unfold pyStrip
  have h1 : s.data.dropWhile isPySpace = [] := List.dropWhile_eq_nil_iff.mpr h
  rw [h1]
  rfl

/-- A configuration string of only commas and whitespace produces an empty
target set. -/
theorem TARGET_empty_of_sep (cfg : Config)
    (h : ∀ c ∈ cfg.TARGET_FUNCTION_NAMES_STR.data, c = ',' ∨ isPySpace c) :
    TARGET_FUNCTION_NAMES cfg = [] := by
  unfold TARGET_FUNCTION_NAMES
  rw [List.filter_eq_nil_iff]
  intro x hx
  simp only [List.mem_map, pySplitComma] at hx
  obtain ⟨y, hy, hxy⟩ := hx
  obtain ⟨cs, hcs, rfl⟩ := hy
  have hempty : pyStrip ⟨cs⟩ = "" := by
    refine pyStrip_eq_empty _ (fun c hc => ?_)
    obtain ⟨h1, h2⟩ := splitCommaChars_subset _ cs hcs c hc
    rcases h c h1 with hcc | hcc
    · exact absurd hcc h2
    · exact hcc
  rw [← hxy, hempty]
  simp

/-- The augmentation leaves a request whose resource list is empty alone,
under any configuration. -/
theorem add_empty_request (cfg : Config) (now : ℚ) :
    add_custom_summary_metric cfg now [{ resource_metrics := [] }]
      = [{ resource_metrics := [] }] := by
  cases hcfg : configComplete cfg with
  | false => exact add_id_of_incomplete cfg now _ hcfg
  | true =>
    rw [add_eq_mapScopes cfg now _ hcfg]
    simp [mapScopes]

/-! # Claim theorems -/

/-- C2: for every function value and custom-attribute list, the Summary
Metric Factory returns a summary-shaped metric whose single data point has
`count = 1`, `sum = 1.0`, exactly the two quantile-value pairs
(0.0 → 1.0, 1.0 → 1.0), both timestamps equal to the wall-clock time
truncated to whole seconds then scaled to nanoseconds, and whose labels are,
in order: the fixed namespace label, the fixed metric-name label, the
identifier-key label with the function value, then one label per custom
attribute. -/
theorem c2_factory_shape (now : ℚ) (function_name : String)
    (custom_attrs : List (String × String)) :
    create_custom_summary_metric now function_name custom_attrs
      = { name := "amazonaws.com/AWS/Lambda/Custom"
          description := ""
          unit := "{Count}"
          data := some (.double_summary
            [{ labels :=
                 [ { key := "Namespace", value := "AWS/Lambda" },
                   { key := "MetricName", value := "Custom" },
                   { key := FUNCTION_NAME_LABEL_KEY, value := function_name } ]
                 ++ custom_attrs.map (fun kv => { key := kv.1, value := kv.2 }),
               start_time_unix_nano := pyInt now * 1000000000,
               time_unix_nano := pyInt now * 1000000000,
               count := 1,
               sum := 1,
               quantile_values := [{ quantile := 0, value := 1 },
                                   { quantile := 1, value := 1 }] }]) } := rfl

/-- C3: decoding the stream produced by encoding any well-formed message
list yields exactly that list, in order (each message below the 32-bit
length-prefix limit of the stream decoder). -/
theorem c3_roundtrip (M : List ExportMetricsServiceRequest)
    (hlen : ∀ r ∈ M, (serializeRequest r).length < 4294967296) :
    parse_delimited_stream (serialize_requests_to_delimited_stream M)
      = some M := by
  have h := parse_serialize_append M [] hlen
  rw [List.append_nil] at h
  rw [h, parse_nil]
  simp

/-- Witness for C3 on a one-message stream whose message holds one resource
with no labels and no scopes (`⟨[⟨[], []⟩]⟩`). -/
theorem c3_roundtrip_witness :
    (∀ r ∈ [(⟨[⟨[], []⟩]⟩ : ExportMetricsServiceRequest)],
        (serializeRequest r).length < 4294967296) ∧
    parse_delimited_stream (serialize_requests_to_delimited_stream
        [(⟨[⟨[], []⟩]⟩ : ExportMetricsServiceRequest)])
      = some [⟨[⟨[], []⟩]⟩] := by
  have hlen : ∀ r ∈ [(⟨[⟨[], []⟩]⟩ : ExportMetricsServiceRequest)],
      (serializeRequest r).length < 4294967296 := by
    intro r hr
    simp only [List.mem_singleton] at hr
    subst hr
    simp [serializeRequest, encListTok, encRM, encLabel, encIlm, encodeVarint]
  exact ⟨hlen, c3_roundtrip _ hlen⟩

/-- C4 counterexample: the buffer `[0x05]` declares a five-byte message with
no bytes remaining; the claim requires a framing failure, but the decoder
silently clamps the slice and parses the empty bytes as an empty message. -/
theorem c4_counterexample :
    parse_delimited_stream [5] = some [{ resource_metrics := [] }] := by
  simp [parse_delimited_stream, decVarint, parseRequestBytes]

/-- C4 (amended): decoding fails when a length prefix is truncated — a
nonempty trailing run of continuation bytes after the last complete frame
cannot be decoded — but a declared length that exceeds the remaining buffer
is silently clamped to the available bytes rather than raising, and a
residual terminator byte after the last complete frame is consumed as the
length prefix of a new (empty) frame rather than being an error. -/
theorem c4_amended_framing (M : List ExportMetricsServiceRequest)
    (hlen : ∀ r ∈ M, (serializeRequest r).length < 4294967296)
    (suffix : List Nat) (hne : suffix ≠ [])
    (hcont : ∀ b ∈ suffix, 128 ≤ b % 256) :
    parse_delimited_stream
        (serialize_requests_to_delimited_stream M ++ suffix) = none
      ∧ parse_delimited_stream
          (serialize_requests_to_delimited_stream M ++ [0])
        = some (M ++ [{ resource_metrics := [] }]) := by
  constructor
  · rw [parse_serialize_append M suffix hlen]
    have hvar : ∀ (s : List Nat), s ≠ [] → (∀ b ∈ s, 128 ≤ b % 256) →
        ∀ shift acc, decVarint s shift acc = none := by
      intro s
      induction s with
      | nil => intro h; exact absurd rfl h
      | cons b bs ih =>
        intro _ hb shift acc
        have hb1 := hb b (by simp)
        simp only [decVarint]
        rw [if_neg (by omega)]
        by_cases hsh : shift + 7 ≥ 64
        · rw [if_pos hsh]
        · rw [if_neg hsh]
          rcases bs with _ | ⟨c, cs⟩
          · rfl
          · exact ih (by simp) (fun x hx => hb x (by simp [hx])) _ _
    rw [parse_step_none suffix hne (hvar suffix hne hcont 0 0)]
    rfl
  · rw [parse_serialize_append M [0] hlen]
    have h0 : parse_delimited_stream [0]
        = some [{ resource_metrics := [] }] := by
      simp [parse_delimited_stream, decVarint, parseRequestBytes]
    rw [h0]
    rfl

/-- Witness for C4 (amended): the empty stream followed by one lone
continuation byte fails to decode. -/
theorem c4_amended_framing_witness :
    ((∀ r ∈ ([] : List ExportMetricsServiceRequest),
        (serializeRequest r).length < 4294967296) ∧
      ([128] : List Nat) ≠ [] ∧ (∀ b ∈ [(128 : Nat)], 128 ≤ b % 256)) ∧
    parse_delimited_stream
        (serialize_requests_to_delimited_stream [] ++ [128]) = none :=
  ⟨⟨by simp, by simp, by decide⟩,
    (c4_amended_framing [] (by simp) [128] (by simp) (by decide)).1⟩

/-- C6: the augmentation only appends to scope metric lists — every metric
present before the pass is still present, unmodified and in place, the
appended tail is computed from the scope's pre-pass metric list alone, and
no other field of the tree changes. -/
theorem c6_append_only (cfg : Config) (now : ℚ)
    (requests : List ExportMetricsServiceRequest) :
    List.Forall₂ (fun rq rq' =>
      List.Forall₂ (fun rm rm' =>
        rm'.resource = rm.resource ∧
        List.Forall₂ (fun ilm ilm' =>
          ilm'.library_name = ilm.library_name ∧
          (ilm'.metrics = ilm.metrics
              ++ (ilmScan cfg now (customAttrs cfg) ilm).2
            ∨ ilm' = ilm))
          rm.instrumentation_library_metrics
          rm'.instrumentation_library_metrics)
        rq.resource_metrics rq'.resource_metrics)
      requests (add_custom_summary_metric cfg now requests) := by
  cases hcfg : configComplete cfg with
  | false =>
    rw [add_id_of_incomplete cfg now requests hcfg, List.forall₂_same]
    intro rq _
    rw [List.forall₂_same]
    intro rm _
    refine ⟨rfl, ?_⟩
    rw [List.forall₂_same]
    intro ilm _
    exact ⟨rfl, Or.inr rfl⟩
  | true =>
    rw [add_eq_mapScopes cfg now requests hcfg]
    unfold mapScopes
    rw [List.forall₂_map_right_iff, List.forall₂_same]
    intro rq _
    rw [List.forall₂_map_right_iff, List.forall₂_same]
    intro rm _
    refine ⟨rfl, ?_⟩
    rw [List.forall₂_map_right_iff, List.forall₂_same]
    intro ilm _
    exact ⟨rfl, Or.inl rfl⟩

/-- C1: with a complete configuration, every scope of every message is
processed independently; in a scope whose pre-pass metrics carry at least one
data-point label `FunctionName = v` with `v` in the target set, the list of
appended synthetic metrics contains the factory metric for `v` exactly once
(so distinct values each get their own single metric), and the appended list
is computed from the scope's pre-pass metric list, then appended after the
scan (fresh metrics are never re-scanned). -/
theorem c1_dedup_per_scope (cfg : Config) (now : ℚ)
    (requests : List ExportMetricsServiceRequest)
    (ilm : InstrumentationLibraryMetrics) (v : String)
    (hcfg : configComplete cfg = true)
    (hv : v ∈ TARGET_FUNCTION_NAMES cfg)
    (hmatch : labelMatchIn ilm.metrics v) :
    add_custom_summary_metric cfg now requests
        = mapScopes (processIlm cfg now (customAttrs cfg)) requests
      ∧ (processIlm cfg now (customAttrs cfg) ilm).metrics
          = ilm.metrics ++ (ilmScan cfg now (customAttrs cfg) ilm).2
      ∧ ((ilmScan cfg now (customAttrs cfg) ilm).2).count
            (create_custom_summary_metric now v (customAttrs cfg)) = 1 :=
  ⟨add_eq_mapScopes cfg now requests hcfg, rfl,
    ilmScan_count cfg now (customAttrs cfg) ilm v hv hmatch⟩

/-- Witness for C1: scope with one gauge metric holding two data points both
labelled `FunctionName = f1`; exactly one synthetic metric is appended. -/
theorem c1_dedup_per_scope_witness :
    (configComplete ⟨"f1", some "env", some "prod"⟩ = true ∧
      "f1" ∈ TARGET_FUNCTION_NAMES ⟨"f1", some "env", some "prod"⟩ ∧
      labelMatchIn [⟨"g", "", "1", some (.double_gauge
        [⟨[⟨"FunctionName", "f1"⟩], 0, 0, 0, 0, []⟩,
         ⟨[⟨"FunctionName", "f1"⟩], 0, 0, 0, 0, []⟩])⟩] "f1") ∧
    ((ilmScan ⟨"f1", some "env", some "prod"⟩ 0
        (customAttrs ⟨"f1", some "env", some "prod"⟩)
        ⟨"lib", [⟨"g", "", "1", some (.double_gauge
          [⟨[⟨"FunctionName", "f1"⟩], 0, 0, 0, 0, []⟩,
           ⟨[⟨"FunctionName", "f1"⟩], 0, 0, 0, 0, []⟩])⟩]⟩).2).count
      (create_custom_summary_metric 0 "f1"
        (customAttrs ⟨"f1", some "env", some "prod"⟩)) = 1 :=
  ⟨⟨by decide, by decide, by decide⟩,
    (c1_dedup_per_scope ⟨"f1", some "env", some "prod"⟩ 0 []
      ⟨"lib", [⟨"g", "", "1", some (.double_gauge
        [⟨[⟨"FunctionName", "f1"⟩], 0, 0, 0, 0, []⟩,
         ⟨[⟨"FunctionName", "f1"⟩], 0, 0, 0, 0, []⟩])⟩]⟩ "f1"
      (by decide) (by decide) (by decide)).2.2⟩

/-- C10: the target set comes from splitting the configured string on
commas, stripping each piece, and discarding empty pieces: a string of only
commas and whitespace yields an empty target set and disables augmentation,
and a label value is in the target set exactly when it equals a stripped
nonempty piece. -/
theorem c10_target_set (cfg : Config) (now : ℚ)
    (requests : List ExportMetricsServiceRequest) (v : String) :
    ((∀ c ∈ cfg.TARGET_FUNCTION_NAMES_STR.data, c = ',' ∨ isPySpace c) →
      TARGET_FUNCTION_NAMES cfg = []
        ∧ add_custom_summary_metric cfg now requests = requests) ∧
    (v ∈ TARGET_FUNCTION_NAMES cfg ↔
      ∃ piece ∈ pySplitComma cfg.TARGET_FUNCTION_NAMES_STR,
        pyStrip piece = v ∧ v ≠ "") := by
  constructor
  · intro h
    have ht := TARGET_empty_of_sep cfg h
    refine ⟨ht, ?_⟩
    have hcfg : configComplete cfg = false := by
      unfold configComplete
      rcases cfg.ATTRIBUTE_KEY with _ | ak <;>
        rcases cfg.ATTRIBUTE_VALUE with _ | av <;> simp [ht]
    exact add_id_of_incomplete cfg now requests hcfg
  · unfold TARGET_FUNCTION_NAMES
    simp only [List.mem_filter, List.mem_map, decide_eq_true_eq]
    constructor
    · rintro ⟨⟨piece, hp, hs⟩, hne⟩
      exact ⟨piece, hp, hs, hne⟩
    · rintro ⟨piece, hp, hs, hne⟩
      exact ⟨⟨piece, hp, hs⟩, hne⟩

/-- Witness for C10: a configuration string of commas and blanks (including
a tab) yields no targets and a no-op augmentation. -/
theorem c10_target_set_witness :
    TARGET_FUNCTION_NAMES ⟨" , ,,\t ", some "k", some "v"⟩ = []
      ∧ add_custom_summary_metric ⟨" , ,,\t ", some "k", some "v"⟩ 0 [] = [] :=
  (c10_target_set ⟨" , ,,\t ", some "k", some "v"⟩ 0 [] "x").1 (by decide)

/-- C5: with identifiers present, a record list whose `j`-th record is the
only malformed one (its payload fails base64 decoding or stream parsing)
yields a result list of the same length in which entry `j` is
`ProcessingFailed` and carries the original data string unchanged, every
other entry is `Ok`, and exactly one entry is `ProcessingFailed`. -/
theorem c5_isolation (cfg : Config) (now : ℚ)
    (records : List FirehoseRecord) (j : Nat) (hj : j < records.length)
    (hid : ∀ r ∈ records, (r.recordId).isSome)
    (hmal : (b64decode (records.get ⟨j, hj⟩).data).bind parse_delimited_stream
      = none)
    (hok : ∀ i (hi : i < records.length), i ≠ j →
      ((b64decode (records.get ⟨i, hi⟩).data).bind
        parse_delimited_stream).isSome) :
    ∃ out, handler cfg now records = some out ∧
      out.length = records.length ∧
      (∀ hj2 : j < out.length,
        (out.get ⟨j, hj2⟩).result = "ProcessingFailed" ∧
        (out.get ⟨j, hj2⟩).data = (records.get ⟨j, hj⟩).data) ∧
      (∀ i (hi : i < records.length) (hi2 : i < out.length), i ≠ j →
        (out.get ⟨i, hi2⟩).result = "Ok") ∧
      out.countP (fun o => o.result == "ProcessingFailed") = 1 := by
  refine ⟨records.map
      (fun r => processRecord cfg now ((r.recordId).getD "") r.data),
    handler_eq_map cfg now records hid, by simp, ?_, ?_, ?_⟩
  · intro hj2
    have hget : (records.map
        (fun r => processRecord cfg now ((r.recordId).getD "") r.data)).get
          ⟨j, hj2⟩
        = processRecord cfg now
            (((records.get ⟨j, hj⟩).recordId).getD "")
            (records.get ⟨j, hj⟩).data := by
      simp
    rw [hget, processRecord_fail cfg now _ _ hmal]
    exact ⟨rfl, rfl⟩
  · intro i hi hi2 hne
    have hget : (records.map
        (fun r => processRecord cfg now ((r.recordId).getD "") r.data)).get
          ⟨i, hi2⟩
        = processRecord cfg now
            (((records.get ⟨i, hi⟩).recordId).getD "")
            (records.get ⟨i, hi⟩).data := by
      simp
    rw [hget]
    exact processRecord_ok cfg now _ _ (hok i hi hne)
  · refine countP_eq_one_unique _ _ j (by simpa using hj) ?_
    intro i hi
    have hi' : i < records.length := by simpa using hi
    have hget : (records.map
        (fun r => processRecord cfg now ((r.recordId).getD "") r.data)).get
          ⟨i, hi⟩
        = processRecord cfg now
            (((records.get ⟨i, hi'⟩).recordId).getD "")
            (records.get ⟨i, hi'⟩).data := by
      simp
    rw [hget]
    by_cases hij : i = j
    · subst hij
      rw [processRecord_fail cfg now _ _ hmal]
      simp
    · have hres := processRecord_ok cfg now
        (((records.get ⟨i, hi'⟩).recordId).getD "")
        (records.get ⟨i, hi'⟩).data (hok i hi' hij)
      simp only [List.get_eq_getElem] at hres
      simp [hres, hij]

/-- Witness for C5: two records, the second carrying `gA==` (the single
continuation byte `0x80`, an unparsable stream); exactly one result is
`ProcessingFailed`. -/
theorem c5_isolation_witness :
    ((b64decode "gA==").bind parse_delimited_stream = none ∧
      ((b64decode "AA==").bind parse_delimited_stream).isSome) ∧
    ∃ out, handler ⟨"", none, none⟩ 0
        [⟨some "a", "AA=="⟩, ⟨some "b", "gA=="⟩] = some out ∧
      out.countP (fun o => o.result == "ProcessingFailed") = 1 := by
  have hmal : (b64decode "gA==").bind parse_delimited_stream = none := by
    have hb : b64decode "gA==" = some [128] := by decide
    rw [hb, Option.some_bind]
    exact parse_step_none [128] (by simp) (by decide)
  have hok : ((b64decode "AA==").bind parse_delimited_stream).isSome := by
    have hb : b64decode "AA==" = some [0] := by decide
    rw [hb, Option.some_bind]
    simp [parse_delimited_stream, decVarint, parseRequestBytes]
  obtain ⟨out, h1, h2, h3, h4, h5⟩ := c5_isolation ⟨"", none, none⟩ 0
    [⟨some "a", "AA=="⟩, ⟨some "b", "gA=="⟩] 1 (by simp) (by simp)
    hmal
    (by
      intro i hi hne
      have hi0 : i = 0 := by simp at hi; omega
      subst hi0
      exact hok)
  exact ⟨⟨hmal, hok⟩, out, h1, h5⟩

/-- C7: if any of the three configuration values is absent or empty, no
synthetic metric is appended — the augmentation is the identity — yet every
well-formed record is still decoded, re-encoded, and reported `Ok`. -/
theorem c7_incomplete_config (cfg : Config) (now : ℚ)
    (requests : List ExportMetricsServiceRequest)
    (records : List FirehoseRecord)
    (hcfg : configComplete cfg = false)
    (hid : ∀ r ∈ records, (r.recordId).isSome)
    (hwf : ∀ r ∈ records,
      ((b64decode r.data).bind parse_delimited_stream).isSome) :
    add_custom_summary_metric cfg now requests = requests ∧
    ∃ out, handler cfg now records = some out ∧
      out.length = records.length ∧ ∀ o ∈ out, o.result = "Ok" := by
  refine ⟨add_id_of_incomplete cfg now requests hcfg,
    records.map (fun r => processRecord cfg now ((r.recordId).getD "") r.data),
    handler_eq_map cfg now records hid, by simp, ?_⟩
  intro o ho
  obtain ⟨r, hr, rfl⟩ := List.mem_map.mp ho
  exact processRecord_ok cfg now _ _ (hwf r hr)

/-- Witness for C7: `ATTRIBUTE_VALUE` unset, one record with the empty
payload. -/
theorem c7_incomplete_config_witness :
    (configComplete ⟨"f1", some "env", none⟩ = false ∧
      ((b64decode "").bind parse_delimited_stream).isSome) ∧
    (add_custom_summary_metric ⟨"f1", some "env", none⟩ 0 [] = [] ∧
      ∃ out, handler ⟨"f1", some "env", none⟩ 0 [⟨some "r", ""⟩] = some out ∧
        out.length = 1 ∧ ∀ o ∈ out, o.result = "Ok") := by
  have hwf : ((b64decode "").bind parse_delimited_stream).isSome := by
    have hb : b64decode "" = some [] := rfl
    rw [hb, Option.some_bind, parse_nil]
    rfl
  have h := c7_incomplete_config ⟨"f1", some "env", none⟩ 0 [] [⟨some "r", ""⟩]
    (by decide) (by simp)
    (by intro r hr; simp only [List.mem_singleton] at hr; subst hr; exact hwf)
  exact ⟨⟨by decide, hwf⟩, h.1, h.2⟩

/-- C8: the handler returns one result per input record, in order, each
carrying that record's identifier; an empty record list yields an empty
result list, and a record whose payload decodes to zero resource-metrics is
re-encoded successfully as the same empty structure. -/
theorem c8_shape (cfg : Config) (now : ℚ) (records : List FirehoseRecord)
    (hid : ∀ r ∈ records, (r.recordId).isSome) :
    (∃ out, handler cfg now records = some out ∧
      out.length = records.length ∧
      ∀ i (hi : i < records.length) (hi2 : i < out.length),
        (out.get ⟨i, hi2⟩).recordId
          = ((records.get ⟨i, hi⟩).recordId).getD "") ∧
    (records = [] → handler cfg now records = some []) ∧
    handler cfg now [⟨some "id0", "AA=="⟩]
      = some [⟨"id0", "Ok", "AA=="⟩] := by
  refine ⟨⟨records.map
      (fun r => processRecord cfg now ((r.recordId).getD "") r.data),
    handler_eq_map cfg now records hid, by simp, ?_⟩, ?_, ?_⟩
  · intro i hi hi2
    have hget : (records.map
        (fun r => processRecord cfg now ((r.recordId).getD "") r.data)).get
          ⟨i, hi2⟩
        = processRecord cfg now
            (((records.get ⟨i, hi⟩).recordId).getD "")
            (records.get ⟨i, hi⟩).data := by
      simp
    rw [hget]
    exact processRecord_recordId cfg now _ _
  · rintro rfl
    rfl
  · rw [handler_eq_map cfg now _ (by simp)]
    have h1 : b64decode "AA==" = some [0] := by decide
    have h2 : parse_delimited_stream [0]
        = some [{ resource_metrics := [] }] := by
      simp [parse_delimited_stream, decVarint, parseRequestBytes]
    have h0 : encodeVarint 0 = [0] := by simp [encodeVarint]
    have h3 : serialize_requests_to_delimited_stream
        [({ resource_metrics := [] } : ExportMetricsServiceRequest)]
        = [0] := by
      simp [serialize_requests_to_delimited_stream, serializeRequest, h0]
    have h4 : b64encode [0] = "AA==" := by decide
    simp [processRecord, h1, h2, h3, h4, add_empty_request]

/-- Witness for C8 at the empty record list (with the concrete empty-payload
conjunct carried along). -/
theorem c8_shape_witness :
    (∀ r ∈ ([] : List FirehoseRecord), (r.recordId).isSome) ∧
    (handler ⟨"", none, none⟩ 0 [] = some [] ∧
      handler ⟨"", none, none⟩ 0 [⟨some "id0", "AA=="⟩]
        = some [⟨"id0", "Ok", "AA=="⟩]) := by
  have h := c8_shape ⟨"", none, none⟩ 0 [] (by simp)
  exact ⟨by simp, h.2.1 rfl, h.2.2⟩

/-- C9: a record without the record-identifier key makes the handler raise —
the identifier is read before the per-record `try` — while a record with an
identifier but undecodable payload still yields a `ProcessingFailed` result
instead of aborting the invocation. -/
theorem c9_missing_recordId (cfg : Config) (now : ℚ) :
    (∀ records : List FirehoseRecord,
      (∃ r ∈ records, r.recordId = none) → handler cfg now records = none) ∧
    (∀ rid s : String, b64decode s = none →
      handler cfg now [⟨some rid, s⟩]
        = some [⟨rid, "ProcessingFailed", s⟩]) := by
  constructor
  · rintro records ⟨r, hr, hnone⟩
    exact handler_missing_id cfg now records r hr hnone
  · intro rid s hb
    rw [handler_eq_map cfg now _ (by simp)]
    have hfail := processRecord_fail cfg now rid s (by rw [hb]; rfl)
    simp [hfail]

/-- Witness for C9: a record with no identifier aborts; invalid base64
(`"%"`) with an identifier is isolated. -/
theorem c9_missing_recordId_witness :
    handler ⟨"", none, none⟩ 0 [⟨none, "x"⟩] = none ∧
    handler ⟨"", none, none⟩ 0 [⟨some "r", "%"⟩]
      = some [⟨"r", "ProcessingFailed", "%"⟩] :=
  ⟨(c9_missing_recordId ⟨"", none, none⟩ 0).1 [⟨none, "x"⟩]
      ⟨⟨none, "x"⟩, by simp, rfl⟩,
    (c9_missing_recordId ⟨"", none, none⟩ 0).2 "r" "%" (by decide)⟩

end Otlp
